import Mathlib

/-!
Shallow embedding of `agents/frankenagent/frankenagent.py` (FrankenAgent, an
automated negotiation party for the GeniusWeb SAOP protocol), with theorems
about its acceptance rule, candidate-bid search, scoring function,
opponent-model lifecycle, and turn handling.

Modelling conventions:
* Python `Decimal` and `float` arithmetic is modelled over the exact
  rationals.  `Decimal(0.9)` converts the binary double nearest to 0.9,
  whose exact value is `8106479329266893 / 2 ^ 53` (about `0.9 + 2.2e-17`),
  not `9 / 10`; the constant `decimal_0_9` records this exactly.  (The
  default `Decimal` context additionally rounds the result of the
  subtraction `previous_offer_utility - Decimal(0.9)` to 28 significant
  digits; that sub-ulp perturbation is far below every quantity compared
  here and is not modelled.)  The float literal `T = 0.95` of `accept` is
  modelled as `19 / 20`: the double nearest to 0.95 is below `19 / 20` and
  no double lies strictly between the two, so `progress > T` agrees with
  `progress > 19 / 20` on every float `progress`.
* External collaborators (the GeniusWeb library) enter through the fields
  of `AgentState`: `utility` is `profile.getUtility`, `allBids` is the
  index-addressable enumeration `AllBidsList(domain)` of the full bid
  space, and `progress` is the value `progress.get(time() * 1000)` returned
  at the decision point.
* Randomness is passed explicitly: `random_indices` stands for the result
  of `random.sample(range(num_bids), min(num_bids, 500))`, whose support is
  the predicate `validSample`, and `k` stands for the index drawn uniformly
  by `random.choice` over the chosen sequence.
* A turn of code that can raise an uncaught Python exception returns
  `Except String`; `Except.error` marks the raise.
* The class `OpponentModel` is imported from
  `agents/frankenagent/utils/opponent_model.py`, a file that is not among
  the provided sources; it is modelled from the spec (section 4.1) and
  marked as such below.
-/

/-- An issue of the negotiation domain, identified by a natural number. -/
abbrev Issue := Nat

/-- A value of an issue, identified by a natural number. -/
abbrev Value := Nat

/-- A bid (`geniusweb.issuevalue.Bid`): an assignment of one value to every
issue, modelled as an association list of issue/value pairs. -/
abbrev Bid := List (Issue × Value)

/-- A negotiation domain (`geniusweb.issuevalue.Domain`): the issues with
their finite value sets. -/
abbrev NegDomain := List (Issue × List Value)

/-- Modelled from the spec: the agent imports `OpponentModel` from
`agents/frankenagent/utils/opponent_model.py`, which is not among the
provided sources.  Spec section 4.1: the model keeps, per issue, an
observation count for every value observed in opponent bids, together with
the domain (needed for the uniform default). -/
structure OpponentModel where
  domain : NegDomain
  counts : List ((Issue × Value) × Nat)
deriving DecidableEq

/-- Modelled from the spec: the constructor `OpponentModel(domain)` starts
with no observations recorded. -/
def OpponentModel.new (d : NegDomain) : OpponentModel :=
  { domain := d, counts := [] }

/-- Increment the observation count of one issue/value pair in the
association list of counts. -/
def bumpCount : List ((Issue × Value) × Nat) → (Issue × Value) → List ((Issue × Value) × Nat)
  | [], key => [(key, 1)]
  | (k, c) :: rest, key =>
      if k = key then (k, c + 1) :: rest else (k, c) :: bumpCount rest key

/-- Modelled from the spec: `update(bid)` increments, for each issue of the
bid, the observation count of the value the bid assigns to that issue;
counts only ever increase. -/
def OpponentModel.update (m : OpponentModel) (bid : Bid) : OpponentModel :=
  { m with counts := bid.foldl bumpCount m.counts }

/-- Total number of observations recorded for one issue. -/
def issueTotal (counts : List ((Issue × Value) × Nat)) (iss : Issue) : Nat :=
  (counts.filter (fun p => decide (p.1.1 = iss))).foldl (fun acc p => acc + p.2) 0

/-- Observation count recorded for one issue/value pair. -/
def countFor (counts : List ((Issue × Value) × Nat)) (key : Issue × Value) : Nat :=
  (counts.filter (fun p => decide (p.1 = key))).foldl (fun acc p => acc + p.2) 0

/-- Number of values the domain offers for one issue. -/
def valuesOf (d : NegDomain) (iss : Issue) : Nat :=
  (d.filter (fun p => decide (p.1 = iss))).foldl (fun acc p => acc + p.2.length) 0

/-- Modelled from the spec: `get_predicted_utility(bid)` averages, over the
issues of the bid, the observed frequency of the bid's value within its
issue, with the uniform default `1 / |values|` for an issue that has no
observations yet. -/
def OpponentModel.get_predicted_utility (m : OpponentModel) (bid : Bid) : ℚ :=
  if bid.length = 0 then 0
  else
    (bid.foldl
      (fun acc iv =>
        let tot := issueTotal m.counts iv.1
        acc +
          (if tot = 0 then 1 / (valuesOf m.domain iv.1 : ℚ)
           else (countFor m.counts iv : ℚ) / (tot : ℚ))) 0) / (bid.length : ℚ)

/-- A protocol action (`geniusweb.actions`): an `Offer` carries the offered
bid; an `Accept` carries the bid being accepted (the agent constructs it
from `self.last_received_bid`, hence an optional bid). -/
inductive NegAction where
  | offer (actor : Nat) (bid : Bid)
  | accept (actor : Nat) (bid : Option Bid)
deriving DecidableEq

/-- `action.getActor()`. -/
def NegAction.getActor : NegAction → Nat
  | NegAction.offer actor _ => actor
  | NegAction.accept actor _ => actor

/-- `isinstance(action, Offer)`. -/
def NegAction.isOffer : NegAction → Bool
  | NegAction.offer _ _ => true
  | _ => false

/-- The `Inform` messages that reach the agent after setup
(`ActionDone`, `YourTurn`, `Finished`); the initial `Settings` message is
what constructs the `AgentState` and is not modelled as a transition. -/
inductive Inform where
  | actionDone (action : NegAction)
  | yourTurn
  | finished
deriving DecidableEq

/-- The session state of `FrankenAgent` together with its external
collaborators:
* `me` — the party id assigned in `Settings`;
* `domain` — `self.domain`;
* `allBids` — the enumeration `AllBidsList(domain)` of the full bid space,
  addressed by index as in the source (`all_bids.get(index)`, `size()`);
* `utility` — the external `self.profile.getUtility`, a pure function;
* `progress` — the value `self.progress.get(time() * 1000)` returned at the
  decision point;
* `lastReceivedBid` — `self.last_received_bid` (`None` until the first
  opponent offer);
* `opponentModel` — `self.opponent_model` (`None` until the first opponent
  offer);
* `other` — `self.other`; the source stores the opponent's name derived
  from the actor id (`str(actor).rsplit("_", 1)[0]`); the derivation is
  irrelevant to every claim and the field is modelled as the actor id. -/
structure AgentState where
  me : Nat
  domain : NegDomain
  allBids : List Bid
  utility : Bid → ℚ
  progress : ℚ
  lastReceivedBid : Option Bid
  opponentModel : Option OpponentModel
  other : Option Nat

/-- The default time threshold `T = 0.95` of `FrankenAgent.accept`. -/
def T_default : ℚ := 19 / 20

/-- `FrankenAgent.accept(my_upcoming_bid, opponent_offer, T)`
(frankenagent.py lines 199-210): reject when no opponent offer exists;
otherwise accept when the opponent's offer beats the upcoming bid in own
utility, or when progress exceeds the threshold `T`. -/
def FrankenAgent.accept (st : AgentState) (my_upcoming_bid : Bid)
    (opponent_offer : Option Bid) (T : ℚ) : Bool :=
  match opponent_offer with
  | none => false
  | some offer =>
      let progress := st.progress
      decide (st.utility offer > st.utility my_upcoming_bid) || decide (progress > T)

/-- `max_bids_to_check = 500` (frankenagent.py line 238). -/
def max_bids_to_check : Nat := 500

/-- The exact value of Python's `Decimal(0.9)` (frankenagent.py line 252):
converting the float `0.9` yields the binary double nearest to `9 / 10`,
namely `8106479329266893 / 2 ^ 53`, which is strictly greater than
`9 / 10` by about `2.2e-17`. -/
def decimal_0_9 : ℚ := 8106479329266893 / 9007199254740992

/-- The support of `random.sample(range(n), min(n, max_bids_to_check))`
(frankenagent.py lines 239-241): a list of distinct indices below `n` of
length `min n 500`. -/
def validSample (n : Nat) (idxs : List Nat) : Prop :=
  idxs.Nodup ∧ (∀ i ∈ idxs, i < n) ∧ idxs.length = min n max_bids_to_check

instance (n : Nat) (idxs : List Nat) : Decidable (validSample n idxs) := by
  unfold validSample; infer_instance

/-- `random.choice(seq)` with `k` the uniformly drawn index into `seq`;
raises (`Except.error`) when the sequence is empty or the index invalid. -/
def chooseFrom (l : List Bid) (k : Nat) : Except String Bid :=
  match l.get? k with
  | some b => Except.ok b
  | none => Except.error "IndexError: choice from an empty sequence"

/-- The bids materialized from the sampled indices
(frankenagent.py lines 247-248: `bid = all_bids.get(index)`); an
out-of-range index — which never occurs for a valid sample — defaults to
the empty bid. -/
def FrankenAgent.sampledBids (st : AgentState) (random_indices : List Nat) : List Bid :=
  random_indices.map (fun index => st.allBids.getD index [])

/-- `similar_bids_with_concession` (frankenagent.py lines 243-253): the
sampled bids whose own utility exceeds
`previous_offer_utility - Decimal(0.9)`. -/
def FrankenAgent.similar_bids_with_concession (st : AgentState)
    (previous_offer_utility : ℚ) (random_indices : List Nat) : List Bid :=
  (FrankenAgent.sampledBids st random_indices).filter
    (fun bid => decide (st.utility bid > previous_offer_utility - decimal_0_9))

/-- `FrankenAgent.find_bid()` (frankenagent.py lines 212-260).  The first
executed line is `previous_offer_utility =
self.profile.getUtility(self.last_received_bid)`; when no opponent bid has
been received this calls `getUtility(None)`, which raises — modelled as
`Except.error`.  Otherwise: sample indices, keep the bids passing the
concession filter, choose uniformly from them, falling back to a uniform
choice from the entire bid space when the filtered list is empty. -/
def FrankenAgent.find_bid (st : AgentState) (random_indices : List Nat) (k : Nat) :
    Except String Bid :=
  match st.lastReceivedBid with
  | none => Except.error "AttributeError: getUtility called on None"
  | some last =>
      let previous_offer_utility := st.utility last
      let similar :=
        FrankenAgent.similar_bids_with_concession st previous_offer_utility random_indices
      if similar = [] then chooseFrom st.allBids k
      else chooseFrom similar k

/-- The default self-interest weight `alpha = 0.95` of `score_bid`. -/
noncomputable def alpha_default : ℝ := 19 / 20

/-- The default time-pressure shape `eps = 0.1` of `score_bid`. -/
noncomputable def eps_default : ℝ := 1 / 10

/-- `FrankenAgent.score_bid(bid, alpha, eps)` (frankenagent.py lines
262-287), float arithmetic modelled over the exact reals. -/
noncomputable def FrankenAgent.score_bid (st : AgentState) (bid : Bid)
    (alpha : ℝ) (eps : ℝ) : ℝ :=
  let progress : ℝ := (st.progress : ℝ)
  let our_utility : ℝ := (st.utility bid : ℝ)
  let time_pressure : ℝ := 1 - progress ^ ((1 : ℝ) / eps)
  let score : ℝ := alpha * time_pressure * our_utility
  match st.opponentModel with
  | none => score
  | some m => score + (1 - alpha * time_pressure) * (m.get_predicted_utility bid : ℝ)

/-- `FrankenAgent.my_turn()` (frankenagent.py lines 164-180): find a bid to
offer; if `accept` approves the last received bid against it, send an
`Accept` carrying `self.last_received_bid`, otherwise send the `Offer`.
The returned value is the single action passed to `send_action`. -/
def FrankenAgent.my_turn (st : AgentState) (random_indices : List Nat) (k : Nat) :
    Except String NegAction :=
  match FrankenAgent.find_bid st random_indices k with
  | Except.error e => Except.error e
  | Except.ok bid =>
      let action := NegAction.offer st.me bid
      let action :=
        if FrankenAgent.accept st bid st.lastReceivedBid T_default then
          NegAction.accept st.me st.lastReceivedBid
        else action
      Except.ok action

/-- `FrankenAgent.opponent_action(action)` (frankenagent.py lines 143-161):
on an opponent `Offer`, create the opponent model if it does not exist yet,
update it with the offered bid, and record the bid as last received; any
other action leaves the state unchanged. -/
def FrankenAgent.opponent_action (st : AgentState) (action : NegAction) : AgentState :=
  match action with
  | NegAction.offer _ bid =>
      let opponent_model :=
        match st.opponentModel with
        | none => OpponentModel.new st.domain
        | some m => m
      let opponent_model := opponent_model.update bid
      { st with opponentModel := some opponent_model, lastReceivedBid := some bid }
  | _ => st

/-- `FrankenAgent.notifyChange(data)` (frankenagent.py lines 55-109),
restricted to the state-mutating dispatch: an `ActionDone` whose actor is
not the agent itself records the opponent's name and runs
`opponent_action`; the agent's own actions are ignored; `YourTurn` triggers
`my_turn` (modelled separately — it mutates none of these fields) and
`Finished` triggers `save_data` (a file write, no session-state change). -/
def FrankenAgent.notifyChange (st : AgentState) (data : Inform) : AgentState :=
  match data with
  | Inform.actionDone action =>
      if action.getActor ≠ st.me then
        FrankenAgent.opponent_action { st with other := some action.getActor } action
      else st
  | Inform.yourTurn => st
  | Inform.finished => st

/-- `isOpponentOffer me d`: `d` is an `ActionDone` carrying an `Offer` by a
party other than `me` — exactly the messages on which `notifyChange`
reaches the `Offer` branch of `opponent_action`. -/
def isOpponentOffer (me : Nat) : Inform → Bool
  | Inform.actionDone (NegAction.offer actor _) => decide (actor ≠ me)
  | _ => false

/-- A one-issue, two-value example domain used by witnesses and concrete
evaluations. -/
def domain0 : NegDomain := [(0, [0, 1])]

/-- The first bid of `domain0`. -/
def bidA : Bid := [(0, 0)]

/-- The second bid of `domain0`. -/
def bidB : Bid := [(0, 1)]

/-- A session state over `domain0` before any opponent offer was received
(zero utility everywhere, progress 0). -/
def stNoOffer : AgentState :=
  { me := 0, domain := domain0, allBids := [bidA, bidB],
    utility := fun _ => 0, progress := 0,
    lastReceivedBid := none, opponentModel := none, other := none }

/-- State at the acceptance boundary: progress exactly `19 / 20`. -/
def stBoundary : AgentState :=
  { stNoOffer with progress := 19 / 20 }

/-- State for the concession-margin counterexample: the opponent's last
offer `bidA` has own utility exactly `9 / 10`, every other bid utility 0. -/
def stMargin : AgentState :=
  { stNoOffer with
    utility := fun bid => if bid = bidA then 9 / 10 else 0,
    lastReceivedBid := some bidA }

/-- State with an opponent offer received and constant utility `1 / 2`. -/
def stHalf : AgentState :=
  { stNoOffer with
    utility := fun _ => 1 / 2,
    lastReceivedBid := some bidA,
    opponentModel := some (OpponentModel.new domain0) }

/-- A state whose filter rejects the whole sample: the opponent's offer
`bidA` has own utility 1, `bidB` utility 0, and only index 1 (`bidB`) is
sampled, so `bidB` fails the concession filter (`0 > 1 - Decimal(0.9)` is
false). -/
def stSteep : AgentState :=
  { stNoOffer with
    utility := fun bid => if bid = bidA then 1 else 0,
    lastReceivedBid := some bidA }

/-- `random.choice` on a sequence returns the element at the drawn index. -/
theorem chooseFrom_eq_get (l : List Bid) (k : Nat) (hk : k < l.length) :
    chooseFrom l k = Except.ok (l.get ⟨k, hk⟩) := by
  unfold chooseFrom
  rw [List.get?_eq_get hk]

/-- Every sampled bid is a member of the full bid space, provided the
sampled indices are in range. -/
theorem sampledBids_subset (st : AgentState) (random_indices : List Nat)
    (h : ∀ i ∈ random_indices, i < st.allBids.length) :
    ∀ bid ∈ FrankenAgent.sampledBids st random_indices, bid ∈ st.allBids := by
  intro bid hbid
  rcases List.mem_map.1 hbid with ⟨i, hi, rfl⟩
  simp [List.getD_eq_getElem?_getD, List.getElem?_eq_getElem (h i hi)]

/-- Unfolding of `find_bid` when an opponent bid has been received. -/
theorem find_bid_some (st : AgentState) (last : Bid)
    (h : st.lastReceivedBid = some last) (random_indices : List Nat) (k : Nat) :
    FrankenAgent.find_bid st random_indices k =
      if FrankenAgent.similar_bids_with_concession st (st.utility last) random_indices = []
      then chooseFrom st.allBids k
      else
        chooseFrom
          (FrankenAgent.similar_bids_with_concession st (st.utility last) random_indices) k := by
  simp [FrankenAgent.find_bid, h]

/-- C1: the acceptance decision returns `false` when no opponent bid was
received; otherwise it is `true` exactly when the agent's own utility of
the opponent's bid strictly exceeds its own utility of the upcoming bid or
progress strictly exceeds the threshold `T`; progress exactly `T` does not
by itself cause acceptance; the default threshold is `0.95`. -/
theorem FrankenAgent.accept_characterization :
    ∀ (st : AgentState) (my_upcoming_bid : Bid) (T : ℚ),
      FrankenAgent.accept st my_upcoming_bid none T = false
      ∧ (∀ offer : Bid,
          FrankenAgent.accept st my_upcoming_bid (some offer) T = true ↔
            (st.utility offer > st.utility my_upcoming_bid ∨ st.progress > T))
      ∧ (∀ offer : Bid, st.progress = T →
          ¬ st.utility offer > st.utility my_upcoming_bid →
          FrankenAgent.accept st my_upcoming_bid (some offer) T = false)
      ∧ T_default = 19 / 20 := by
  intro st my_upcoming_bid T
  refine ⟨rfl, ?_, ?_, rfl⟩
  · intro offer
    simp [FrankenAgent.accept]
  · intro offer hprog hnot
    simp [FrankenAgent.accept, hprog, hnot]

/-- Witness for C1 at a concrete state: boundary progress `19 / 20 = T`,
utilities all 0, so the acceptance decision is `false` both for an absent
and for a present opponent offer. -/
theorem FrankenAgent.accept_characterization_witness :
    stBoundary.progress = (19 / 20 : ℚ)
    ∧ ¬ stBoundary.utility bidA > stBoundary.utility bidB
    ∧ FrankenAgent.accept stBoundary bidB none (19 / 20) = false
    ∧ FrankenAgent.accept stBoundary bidB (some bidA) (19 / 20) = false := by
  refine ⟨rfl, by decide, ?_, ?_⟩
  · exact (FrankenAgent.accept_characterization stBoundary bidB (19 / 20)).1
  · exact (FrankenAgent.accept_characterization stBoundary bidB (19 / 20)).2.2.1 bidA rfl
      (by decide)

/-- C3 evaluation: with no opponent bid received, `find_bid` raises — the
first executed statement calls `profile.getUtility(None)` — instead of
drawing a filterless random bid as the spec describes. -/
theorem FrankenAgent.find_bid_no_offer_raises :
    ∀ (st : AgentState), st.lastReceivedBid = none →
      ∀ (random_indices : List Nat) (k : Nat),
        FrankenAgent.find_bid st random_indices k =
          Except.error "AttributeError: getUtility called on None" := by
  intro st h random_indices k
  simp [FrankenAgent.find_bid, h]

/-- Witness for C3: the concrete pre-offer state over `domain0`. -/
theorem FrankenAgent.find_bid_no_offer_raises_witness :
    stNoOffer.lastReceivedBid = none
    ∧ FrankenAgent.find_bid stNoOffer [0, 1] 0 =
        Except.error "AttributeError: getUtility called on None" :=
  ⟨rfl, FrankenAgent.find_bid_no_offer_raises stNoOffer rfl [0, 1] 0⟩

/-- C4 counterexample: on the empty opponent-bid history (a legal history:
the agent may receive the first turn), `find_bid` does not return a member
of the bid space — it raises, although the domain is non-empty. -/
theorem FrankenAgent.find_bid_empty_history_error :
    FrankenAgent.find_bid stNoOffer [0, 1] 0 =
        Except.error "AttributeError: getUtility called on None"
    ∧ stNoOffer.lastReceivedBid = none
    ∧ stNoOffer.allBids ≠ [] := by
  refine ⟨rfl, rfl, by simp [stNoOffer]⟩

/-- C4 (amended to histories with at least one received opponent offer):
whenever the filtered candidate list is empty, `find_bid` falls back to a
uniformly random bid drawn from the entire bid space, and in every case it
returns a member of the bid space and no error. -/
theorem FrankenAgent.find_bid_total_with_offer :
    ∀ (st : AgentState) (last : Bid) (random_indices : List Nat) (k : Nat),
      st.lastReceivedBid = some last →
      (∀ i ∈ random_indices, i < st.allBids.length) →
      ((FrankenAgent.similar_bids_with_concession st (st.utility last) random_indices = [] →
          ∀ (hk : k < st.allBids.length),
            FrankenAgent.find_bid st random_indices k =
              Except.ok (st.allBids.get ⟨k, hk⟩))
        ∧ (k < (if FrankenAgent.similar_bids_with_concession st (st.utility last)
                    random_indices = []
                then st.allBids.length
                else (FrankenAgent.similar_bids_with_concession st (st.utility last)
                    random_indices).length) →
            ∃ bid, FrankenAgent.find_bid st random_indices k = Except.ok bid
              ∧ bid ∈ st.allBids)) := by
  intro st last random_indices k hlast hrange
  constructor
  · intro hempty hk
    rw [find_bid_some st last hlast, if_pos hempty, chooseFrom_eq_get st.allBids k hk]
  · intro hk
    by_cases hempty :
        FrankenAgent.similar_bids_with_concession st (st.utility last) random_indices = []
    · rw [if_pos hempty] at hk
      refine ⟨st.allBids.get ⟨k, hk⟩, ?_, List.get_mem st.allBids k hk⟩
      rw [find_bid_some st last hlast, if_pos hempty, chooseFrom_eq_get st.allBids k hk]
    · rw [if_neg hempty] at hk
      refine ⟨(FrankenAgent.similar_bids_with_concession st (st.utility last)
          random_indices).get ⟨k, hk⟩, ?_, ?_⟩
      · rw [find_bid_some st last hlast, if_neg hempty]
        exact chooseFrom_eq_get _ k hk
      · have hmem := List.get_mem
          (FrankenAgent.similar_bids_with_concession st (st.utility last) random_indices) k hk
        have hsub : (FrankenAgent.similar_bids_with_concession st (st.utility last)
            random_indices).get ⟨k, hk⟩ ∈ FrankenAgent.sampledBids st random_indices := by
          have h2 := hmem
          simp only [FrankenAgent.similar_bids_with_concession, List.mem_filter] at h2
          exact h2.1
        exact sampledBids_subset st random_indices hrange _ hsub

/-- Witness for C4: at `stSteep` the sample `[1]` is rejected entirely by
the filter and `find_bid` falls back to the whole bid space, returning its
first bid; at `stHalf` the filter keeps the sample and a bid is returned
as well. -/
theorem FrankenAgent.find_bid_total_with_offer_witness :
    stSteep.lastReceivedBid = some bidA
    ∧ (∀ i ∈ [1], i < stSteep.allBids.length)
    ∧ FrankenAgent.similar_bids_with_concession stSteep (stSteep.utility bidA) [1] = []
    ∧ FrankenAgent.find_bid stSteep [1] 0 = Except.ok (stSteep.allBids.get ⟨0, by simp [stSteep, stNoOffer]⟩) := by
  have hempty :
      FrankenAgent.similar_bids_with_concession stSteep (stSteep.utility bidA) [1] = [] := by
    simp [FrankenAgent.similar_bids_with_concession, FrankenAgent.sampledBids,
      stSteep, stNoOffer, bidA, bidB, decimal_0_9, List.filter]
    norm_num
  refine ⟨rfl, by simp [stSteep, stNoOffer], hempty, ?_⟩
  exact (FrankenAgent.find_bid_total_with_offer stSteep bidA [1] 0 rfl
    (by simp [stSteep, stNoOffer])).1 hempty (by simp [stSteep, stNoOffer])

/-- C8: `find_bid` never inspects the opponent model — two states that
agree on everything except the opponent model (present or absent, any
contents) produce the same bid for every realization of the randomness,
hence identical output distributions. -/
theorem FrankenAgent.find_bid_ignores_opponent_model :
    ∀ (st : AgentState) (m1 m2 : Option OpponentModel)
      (random_indices : List Nat) (k : Nat),
      FrankenAgent.find_bid { st with opponentModel := m1 } random_indices k =
        FrankenAgent.find_bid { st with opponentModel := m2 } random_indices k := by
  intro st m1 m2 random_indices k
  rfl

/-- C2 (amended: the concession margin is `Decimal(0.9)`, the exact
rational `8106479329266893 / 2 ^ 53`, slightly above `9 / 10`): given a
received opponent bid and any list in the support of `random.sample`
(distinct indices, `min(|bid space|, 500)` of them), the filtered list
keeps exactly the sampled bids whose own utility strictly exceeds the own
utility of the last received bid minus that margin, and, when it is
non-empty, `find_bid` returns the element at the uniformly drawn index
into it. -/
theorem FrankenAgent.find_bid_filtered_choice :
    ∀ (st : AgentState) (last : Bid) (random_indices : List Nat),
      st.lastReceivedBid = some last →
      validSample st.allBids.length random_indices →
      ((∀ bid : Bid,
          bid ∈ FrankenAgent.similar_bids_with_concession st (st.utility last)
              random_indices ↔
            bid ∈ FrankenAgent.sampledBids st random_indices ∧
              st.utility bid > st.utility last - decimal_0_9)
        ∧ ∀ (k : Nat)
            (hk : k < (FrankenAgent.similar_bids_with_concession st (st.utility last)
                random_indices).length),
            FrankenAgent.find_bid st random_indices k =
              Except.ok ((FrankenAgent.similar_bids_with_concession st (st.utility last)
                random_indices).get ⟨k, hk⟩)) := by
  intro st last random_indices hlast hsample
  constructor
  · intro bid
    simp [FrankenAgent.similar_bids_with_concession, List.mem_filter]
  · intro k hk
    have hne : FrankenAgent.similar_bids_with_concession st (st.utility last)
        random_indices ≠ [] := by
      intro hc
      rw [hc] at hk
      simp at hk
    rw [find_bid_some st last hlast, if_neg hne]
    exact chooseFrom_eq_get _ k hk

/-- Witness for C2's amended theorem at the constant-utility state. -/
theorem FrankenAgent.find_bid_filtered_choice_witness :
    stHalf.lastReceivedBid = some bidA
    ∧ validSample stHalf.allBids.length [0, 1]
    ∧ (bidB ∈ FrankenAgent.similar_bids_with_concession stHalf (stHalf.utility bidA)
          [0, 1] ↔
        bidB ∈ FrankenAgent.sampledBids stHalf [0, 1] ∧
          stHalf.utility bidB > stHalf.utility bidA - decimal_0_9) := by
  refine ⟨rfl, by decide, ?_⟩
  exact (FrankenAgent.find_bid_filtered_choice stHalf bidA [0, 1] rfl (by decide)).1 bidB

/-- C2 counterexample to the margin as stated (exactly `9 / 10`): the
opponent's last offer has own utility `9 / 10`, the other bid utility `0`.
Under the stated margin the filtered set would be `[bidA]` only — `0` does
not strictly exceed `9 / 10 - 9 / 10` — yet the code keeps, and with draw
index 1 returns, `bidB`: the code's margin `Decimal(0.9)` is strictly
greater than `9 / 10`, so its threshold is negative here. -/
theorem FrankenAgent.find_bid_margin_counterexample :
    FrankenAgent.find_bid stMargin [0, 1] 1 = Except.ok bidB
    ∧ (FrankenAgent.sampledBids stMargin [0, 1]).filter
        (fun bid => decide (stMargin.utility bid > stMargin.utility bidA - 9 / 10)) =
        [bidA]
    ∧ ¬ stMargin.utility bidB > stMargin.utility bidA - 9 / 10
    ∧ validSample stMargin.allBids.length [0, 1]
    ∧ stMargin.lastReceivedBid = some bidA := by
  have huA : stMargin.utility bidA = 9 / 10 := by
    simp [stMargin, stNoOffer]
  have huB : stMargin.utility bidB = 0 := by
    simp [stMargin, stNoOffer, bidA, bidB]
  have hsim : FrankenAgent.similar_bids_with_concession stMargin (stMargin.utility bidA)
      [0, 1] = [bidA, bidB] := by
    simp only [FrankenAgent.similar_bids_with_concession, FrankenAgent.sampledBids,
      List.map_cons, List.map_nil, List.filter, huA, huB]
    norm_num [stMargin, stNoOffer, bidA, bidB, decimal_0_9]
  refine ⟨?_, ?_, ?_, by decide, rfl⟩
  · rw [find_bid_some stMargin bidA rfl, hsim]
    simp [chooseFrom]
  · simp only [FrankenAgent.sampledBids, List.map_cons, List.map_nil, List.filter,
      huA, huB]
    norm_num [stMargin, stNoOffer, bidA, bidB]
  · rw [huA, huB]
    norm_num

/-- C5: the scoring function computes
`time_pressure = 1 - progress ^ (1 / eps)` and returns
`alpha * time_pressure * own_utility` when no opponent model exists, and
that quantity plus `(1 - alpha * time_pressure) * predicted_utility` when
one exists; the defaults are `alpha = 0.95`, `eps = 0.1`. -/
theorem FrankenAgent.score_bid_formula :
    ∀ (st : AgentState) (bid : Bid) (alpha eps : ℝ),
      (st.opponentModel = none →
        FrankenAgent.score_bid st bid alpha eps =
          alpha * (1 - (st.progress : ℝ) ^ ((1 : ℝ) / eps)) * (st.utility bid : ℝ))
      ∧ (∀ m : OpponentModel, st.opponentModel = some m →
        FrankenAgent.score_bid st bid alpha eps =
          alpha * (1 - (st.progress : ℝ) ^ ((1 : ℝ) / eps)) * (st.utility bid : ℝ)
            + (1 - alpha * (1 - (st.progress : ℝ) ^ ((1 : ℝ) / eps)))
              * (m.get_predicted_utility bid : ℝ))
      ∧ alpha_default = 19 / 20 ∧ eps_default = 1 / 10 := by
  intro st bid alpha eps
  refine ⟨?_, ?_, rfl, rfl⟩
  · intro h
    simp [FrankenAgent.score_bid, h]
  · intro m h
    simp [FrankenAgent.score_bid, h]

/-- Witness for C5: both branches at concrete states. -/
theorem FrankenAgent.score_bid_formula_witness :
    stNoOffer.opponentModel = none
    ∧ stHalf.opponentModel = some (OpponentModel.new domain0)
    ∧ FrankenAgent.score_bid stNoOffer bidA 1 1 =
        1 * (1 - (stNoOffer.progress : ℝ) ^ ((1 : ℝ) / 1)) * (stNoOffer.utility bidA : ℝ)
    ∧ FrankenAgent.score_bid stHalf bidA 1 1 =
        1 * (1 - (stHalf.progress : ℝ) ^ ((1 : ℝ) / 1)) * (stHalf.utility bidA : ℝ)
          + (1 - 1 * (1 - (stHalf.progress : ℝ) ^ ((1 : ℝ) / 1)))
            * ((OpponentModel.new domain0).get_predicted_utility bidA : ℝ) :=
  ⟨rfl, rfl, (FrankenAgent.score_bid_formula stNoOffer bidA 1 1).1 rfl,
    (FrankenAgent.score_bid_formula stHalf bidA 1 1).2.1 (OpponentModel.new domain0) rfl⟩

/-- C6: with `previous_offer_utility = 1 / 2` the filter threshold
`1 / 2 - Decimal(0.9)` is negative (about `-0.4`), so every sampled bid of
non-negative utility passes the filter: the filtered list equals the whole
sample, and `find_bid` behaves exactly like an unfiltered uniformly random
choice from the sample. -/
theorem FrankenAgent.find_bid_degenerate_filter :
    ∀ (st : AgentState) (last : Bid) (random_indices : List Nat),
      st.lastReceivedBid = some last →
      st.utility last = 1 / 2 →
      (∀ bid : Bid, 0 ≤ st.utility bid ∧ st.utility bid ≤ 1) →
      (st.utility last - decimal_0_9 < 0
        ∧ FrankenAgent.similar_bids_with_concession st (st.utility last) random_indices =
            FrankenAgent.sampledBids st random_indices
        ∧ ∀ (k : Nat) (hk : k < (FrankenAgent.sampledBids st random_indices).length),
            FrankenAgent.find_bid st random_indices k =
              Except.ok ((FrankenAgent.sampledBids st random_indices).get ⟨k, hk⟩)) := by
  intro st last random_indices hlast hhalf hrange
  have hthr : st.utility last - decimal_0_9 < 0 := by
    rw [hhalf]
    norm_num [decimal_0_9]
  have hfilter : FrankenAgent.similar_bids_with_concession st (st.utility last)
      random_indices = FrankenAgent.sampledBids st random_indices := by
    unfold FrankenAgent.similar_bids_with_concession
    rw [List.filter_eq_self]
    intro bid hbid
    have h0 := (hrange bid).1
    simp only [decide_eq_true_eq]
    linarith
  refine ⟨hthr, hfilter, ?_⟩
  intro k hk
  have hne : FrankenAgent.sampledBids st random_indices ≠ [] := by
    intro hc
    rw [hc] at hk
    simp at hk
  rw [find_bid_some st last hlast, hfilter, if_neg hne]
  exact chooseFrom_eq_get _ k hk

/-- Witness for C6 at the constant-`1/2`-utility state. -/
theorem FrankenAgent.find_bid_degenerate_filter_witness :
    stHalf.lastReceivedBid = some bidA
    ∧ stHalf.utility bidA = 1 / 2
    ∧ (∀ bid : Bid, 0 ≤ stHalf.utility bid ∧ stHalf.utility bid ≤ 1)
    ∧ FrankenAgent.similar_bids_with_concession stHalf (stHalf.utility bidA) [0, 1] =
        FrankenAgent.sampledBids stHalf [0, 1] := by
  have hb : ∀ bid : Bid, 0 ≤ stHalf.utility bid ∧ stHalf.utility bid ≤ 1 := by
    intro bid
    constructor <;> norm_num [stHalf, stNoOffer]
  exact ⟨rfl, rfl, hb,
    (FrankenAgent.find_bid_degenerate_filter stHalf bidA [0, 1] rfl rfl hb).2.1⟩

/-- C9 counterexample: on a "my turn" event before any opponent offer, the
agent emits no action at all — `my_turn` calls `find_bid` first, which
raises on the absent last received bid. -/
theorem FrankenAgent.my_turn_no_offer_error :
    FrankenAgent.my_turn stNoOffer [0, 1] 0 =
        Except.error "AttributeError: getUtility called on None"
    ∧ stNoOffer.lastReceivedBid = none :=
  ⟨rfl, rfl⟩

/-- C9 (amended to turns at which at least one opponent offer has been
received): `my_turn` emits exactly one action — the offer of the bid
produced by `find_bid`, or, when the acceptance decision on that bid and
the last received bid holds, an accept carrying exactly the last received
opponent bid. -/
theorem FrankenAgent.my_turn_emits_one_action :
    ∀ (st : AgentState) (last : Bid) (random_indices : List Nat) (k : Nat),
      st.lastReceivedBid = some last →
      ∀ bid : Bid, FrankenAgent.find_bid st random_indices k = Except.ok bid →
        FrankenAgent.my_turn st random_indices k =
          Except.ok
            (if FrankenAgent.accept st bid (some last) T_default then
              NegAction.accept st.me (some last)
            else NegAction.offer st.me bid) := by
  intro st last random_indices k hlast bid hbid
  simp [FrankenAgent.my_turn, hbid, hlast]

/-- Witness for C9's amended theorem: at the constant-utility state the
found bid is `bidA`, the acceptance decision is false (equal utilities,
progress 0), and the emitted action is the offer of `bidA`. -/
theorem FrankenAgent.my_turn_emits_one_action_witness :
    stHalf.lastReceivedBid = some bidA
    ∧ FrankenAgent.find_bid stHalf [0, 1] 0 = Except.ok bidA
    ∧ FrankenAgent.my_turn stHalf [0, 1] 0 =
        Except.ok
          (if FrankenAgent.accept stHalf bidA (some bidA) T_default then
            NegAction.accept stHalf.me (some bidA)
          else NegAction.offer stHalf.me bidA) := by
  have hsim : FrankenAgent.similar_bids_with_concession stHalf (stHalf.utility bidA)
      [0, 1] = [bidA, bidB] := by
    simp only [FrankenAgent.similar_bids_with_concession, FrankenAgent.sampledBids,
      List.map_cons, List.map_nil, List.filter]
    norm_num [stHalf, stNoOffer, decimal_0_9]
  have hbid : FrankenAgent.find_bid stHalf [0, 1] 0 = Except.ok bidA := by
    rw [find_bid_some stHalf bidA rfl, hsim]
    simp [chooseFrom]
  exact ⟨rfl, hbid,
    FrankenAgent.my_turn_emits_one_action stHalf bidA [0, 1] 0 rfl bidA hbid⟩

/-- C10: an `ActionDone` notification changes the last received bid and the
opponent model only when the action was performed by another party and is
an `Offer`; the agent's own actions and non-`Offer` actions of the opponent
leave both fields unchanged, and an opponent `Offer` stores the bid and
updates (creating it if absent) the model. -/
theorem FrankenAgent.notifyChange_actionDone_frame :
    ∀ (st : AgentState) (action : NegAction),
      ((action.getActor = st.me ∨ action.isOffer = false) →
        (FrankenAgent.notifyChange st (Inform.actionDone action)).lastReceivedBid =
            st.lastReceivedBid
          ∧ (FrankenAgent.notifyChange st (Inform.actionDone action)).opponentModel =
            st.opponentModel)
      ∧ (∀ (actor : Nat) (bid : Bid),
          action = NegAction.offer actor bid → actor ≠ st.me →
            (FrankenAgent.notifyChange st (Inform.actionDone action)).lastReceivedBid =
                some bid
              ∧ (FrankenAgent.notifyChange st (Inform.actionDone action)).opponentModel =
                some ((st.opponentModel.getD (OpponentModel.new st.domain)).update bid)) := by
  intro st action
  constructor
  · intro h
    by_cases hme : action.getActor = st.me
    · simp [FrankenAgent.notifyChange, hme]
    · have hoff : action.isOffer = false := h.resolve_left hme
      cases action with
      | offer actor bid => simp [NegAction.isOffer] at hoff
      | accept actor bid =>
          simp [FrankenAgent.notifyChange, hme, FrankenAgent.opponent_action]
  · intro actor bid heq hne
    subst heq
    simp only [FrankenAgent.notifyChange, NegAction.getActor]
    rw [if_pos hne]
    cases hmod : st.opponentModel with
    | none => simp [FrankenAgent.opponent_action, hmod]
    | some m => simp [FrankenAgent.opponent_action, hmod]

/-- Witness for C10: an opponent `Accept` leaves both fields unchanged, and
an opponent `Offer` of `bidB` stores the bid and updates the model. -/
theorem FrankenAgent.notifyChange_actionDone_frame_witness :
    ((NegAction.accept 1 none).getActor = stHalf.me ∨
        (NegAction.accept 1 none).isOffer = false)
    ∧ (FrankenAgent.notifyChange stHalf
          (Inform.actionDone (NegAction.accept 1 none))).lastReceivedBid =
        stHalf.lastReceivedBid
    ∧ (FrankenAgent.notifyChange stHalf
          (Inform.actionDone (NegAction.accept 1 none))).opponentModel =
        stHalf.opponentModel
    ∧ (1 : Nat) ≠ stHalf.me
    ∧ (FrankenAgent.notifyChange stHalf
          (Inform.actionDone (NegAction.offer 1 bidB))).lastReceivedBid = some bidB
    ∧ (FrankenAgent.notifyChange stHalf
          (Inform.actionDone (NegAction.offer 1 bidB))).opponentModel =
        some ((stHalf.opponentModel.getD (OpponentModel.new stHalf.domain)).update bidB) := by
  have h1 := (FrankenAgent.notifyChange_actionDone_frame stHalf
    (NegAction.accept 1 none)).1 (Or.inr rfl)
  have h2 := (FrankenAgent.notifyChange_actionDone_frame stHalf
    (NegAction.offer 1 bidB)).2 1 bidB rfl (by decide)
  exact ⟨Or.inr rfl, h1.1, h1.2, by decide, h2.1, h2.2⟩

/-- `notifyChange` never changes the agent's own party id. -/
theorem notifyChange_me (st : AgentState) (d : Inform) :
    (FrankenAgent.notifyChange st d).me = st.me := by
  cases d with
  | actionDone action =>
      cases action with
      | offer actor bid =>
          simp only [FrankenAgent.notifyChange, NegAction.getActor]
          by_cases hne : actor ≠ st.me
          · rw [if_pos hne]
            simp [FrankenAgent.opponent_action]
          · rw [if_neg hne]
      | accept actor bid =>
          simp only [FrankenAgent.notifyChange, NegAction.getActor]
          by_cases hne : actor ≠ st.me
          · rw [if_pos hne]
            simp [FrankenAgent.opponent_action]
          · rw [if_neg hne]
  | yourTurn => rfl
  | finished => rfl

/-- One `notifyChange` step from a state without an opponent model: the
model stays absent exactly when the message is not an opponent offer. -/
theorem notifyChange_model_none_iff (st : AgentState) (d : Inform)
    (h : st.opponentModel = none) :
    ((FrankenAgent.notifyChange st d).opponentModel = none ↔
      isOpponentOffer st.me d = false) := by
  cases d with
  | actionDone action =>
      cases action with
      | offer actor bid =>
          by_cases hne : actor ≠ st.me
          · simp only [FrankenAgent.notifyChange, NegAction.getActor]
            rw [if_pos hne]
            simp [FrankenAgent.opponent_action, isOpponentOffer, hne]
          · simp only [FrankenAgent.notifyChange, NegAction.getActor]
            rw [if_neg hne]
            simp [isOpponentOffer, hne, h]
      | accept actor bid =>
          simp only [FrankenAgent.notifyChange, NegAction.getActor]
          by_cases hne : actor ≠ st.me
          · rw [if_pos hne]
            simp [FrankenAgent.opponent_action, isOpponentOffer, h]
          · rw [if_neg hne]
            simp [isOpponentOffer, h]
  | yourTurn => simp [FrankenAgent.notifyChange, isOpponentOffer, h]
  | finished => simp [FrankenAgent.notifyChange, isOpponentOffer, h]

/-- One `notifyChange` step from a state that already holds an opponent
model instance `m`: the model is never replaced — it is either left as `m`
or becomes `m.update bid` for an opponent offer of `bid`. -/
theorem notifyChange_model_some (st : AgentState) (d : Inform) (m : OpponentModel)
    (h : st.opponentModel = some m) :
    (FrankenAgent.notifyChange st d).opponentModel = some m ∨
      ∃ actor bid, d = Inform.actionDone (NegAction.offer actor bid) ∧ actor ≠ st.me ∧
        (FrankenAgent.notifyChange st d).opponentModel = some (m.update bid) := by
  cases d with
  | actionDone action =>
      cases action with
      | offer actor bid =>
          by_cases hne : actor ≠ st.me
          · right
            refine ⟨actor, bid, rfl, hne, ?_⟩
            simp only [FrankenAgent.notifyChange, NegAction.getActor]
            rw [if_pos hne]
            simp [FrankenAgent.opponent_action, h]
          · left
            simp only [FrankenAgent.notifyChange, NegAction.getActor]
            rw [if_neg hne]
            exact h
      | accept actor bid =>
          left
          simp only [FrankenAgent.notifyChange, NegAction.getActor]
          by_cases hne : actor ≠ st.me
          · rw [if_pos hne]
            simp [FrankenAgent.opponent_action, h]
          · rw [if_neg hne]
            exact h
  | yourTurn => left; exact h
  | finished => left; exact h

/-- Once an opponent model exists, it exists for the rest of the session:
no sequence of further messages makes it absent again. -/
theorem foldl_model_ne_none (acts : List Inform) :
    ∀ (st : AgentState) (m : OpponentModel), st.opponentModel = some m →
      (acts.foldl FrankenAgent.notifyChange st).opponentModel ≠ none := by
  induction acts with
  | nil =>
      intro st m h
      simp [h]
  | cons d rest ih =>
      intro st m h
      rw [List.foldl_cons]
      rcases notifyChange_model_some st d m h with h1 | ⟨a, b, _, _, h1⟩
      · exact ih _ _ h1
      · exact ih _ _ h1

/-- Over a whole message trace from a state without an opponent model, the
model is still absent at the end exactly when no message in the trace was
an opponent offer. -/
theorem foldl_model_none_iff (acts : List Inform) :
    ∀ (st : AgentState), st.opponentModel = none →
      (((acts.foldl FrankenAgent.notifyChange st).opponentModel = none) ↔
        ∀ d ∈ acts, isOpponentOffer st.me d = false) := by
  induction acts with
  | nil =>
      intro st h
      simp [h]
  | cons d rest ih =>
      intro st h
      rw [List.foldl_cons]
      by_cases hd : isOpponentOffer st.me d = false
      · have h1 : (FrankenAgent.notifyChange st d).opponentModel = none :=
          (notifyChange_model_none_iff st d h).2 hd
        have hiff := ih (FrankenAgent.notifyChange st d) h1
        rw [notifyChange_me st d] at hiff
        rw [hiff]
        simp [List.forall_mem_cons, hd]
      · have h1 : (FrankenAgent.notifyChange st d).opponentModel ≠ none := by
          intro hc
          exact hd ((notifyChange_model_none_iff st d h).1 hc)
        obtain ⟨m, hm⟩ := Option.ne_none_iff_exists'.1 h1
        constructor
        · intro hc
          exact absurd hc (foldl_model_ne_none rest (FrankenAgent.notifyChange st d) m hm)
        · intro hall
          exact absurd (hall d (List.mem_cons_self d rest)) hd

/-- C7: starting from a session state without an opponent model, the model
is absent after a message trace exactly when the trace contains no opponent
offer (so it is created only after the first opponent offer has been
observed), and from any state already holding a model instance a step never
replaces it — the instance either stays as is or is updated in place with
the offered bid, so the model is created at most once per session. -/
theorem FrankenAgent.opponent_model_lifecycle :
    ∀ (st : AgentState) (acts : List Inform), st.opponentModel = none →
      ((((acts.foldl FrankenAgent.notifyChange st).opponentModel = none) ↔
          ∀ d ∈ acts, isOpponentOffer st.me d = false)
        ∧ (∀ (pre : AgentState) (d : Inform) (m : OpponentModel),
            pre.opponentModel = some m →
              ((FrankenAgent.notifyChange pre d).opponentModel = some m ∨
                ∃ actor bid, d = Inform.actionDone (NegAction.offer actor bid)
                  ∧ actor ≠ pre.me
                  ∧ (FrankenAgent.notifyChange pre d).opponentModel =
                      some (m.update bid)))) := by
  intro st acts h
  exact ⟨foldl_model_none_iff acts st h,
    fun pre d m hm => notifyChange_model_some pre d m hm⟩

/-- Witness for C7 on a concrete two-message trace containing one opponent
offer. -/
theorem FrankenAgent.opponent_model_lifecycle_witness :
    stNoOffer.opponentModel = none
    ∧ ((((([Inform.actionDone (NegAction.offer 1 bidA), Inform.yourTurn]).foldl
            FrankenAgent.notifyChange stNoOffer).opponentModel = none) ↔
          ∀ d ∈ [Inform.actionDone (NegAction.offer 1 bidA), Inform.yourTurn],
            isOpponentOffer stNoOffer.me d = false)
        ∧ (∀ (pre : AgentState) (d : Inform) (m : OpponentModel),
            pre.opponentModel = some m →
              ((FrankenAgent.notifyChange pre d).opponentModel = some m ∨
                ∃ actor bid, d = Inform.actionDone (NegAction.offer actor bid)
                  ∧ actor ≠ pre.me
                  ∧ (FrankenAgent.notifyChange pre d).opponentModel =
                      some (m.update bid)))) :=
  ⟨rfl, FrankenAgent.opponent_model_lifecycle stNoOffer
    [Inform.actionDone (NegAction.offer 1 bidA), Inform.yourTurn] rfl⟩
